import Mathlib

/-!
Shallow embedding of `src/SimPEG/Mesh/TensorMesh.py` (class `TensorMesh`).

Numeric arrays are modelled as `List ℚ` (exact arithmetic), a matrix as a
list of rows.  The per-axis properties `vectorNx/Ny/Nz`, `vectorCCx/CCy/CCz`
are modelled through a common axis-indexed core (`vectorN`, `vectorCC`),
with the y/z variants returning `none` below the required dimension exactly
as the source returns `None`.

`Utils.mkvc` and the `BaseMesh` counters `nFv`/`nEv` are not part of the
source file; they are modelled from the spec where needed and marked as such.
-/

/-- `List` form of `numpy.cumsum` with an explicit running accumulator. -/
def cumsumFrom (acc : ℚ) : List ℚ → List ℚ
  | [] => []
  | w :: ws => (acc + w) :: cumsumFrom (acc + w) ws

/-- `hx.cumsum()` : running sums of a width list. -/
def cumsum (ws : List ℚ) : List ℚ := cumsumFrom 0 ws

/-- Sum of the first `i` entries (prefix sum), used to index into `cumsum`. -/
def psum (ws : List ℚ) (i : ℕ) : ℚ := (ws.take i).sum

/-- `arr.min()` of numpy on a nonempty array (0 as junk value on `[]`). -/
def lmin : List ℚ → ℚ
  | [] => 0
  | x :: xs => xs.foldl min x

/-- `arr.max()` of numpy on a nonempty array (0 as junk value on `[]`). -/
def lmax : List ℚ → ℚ
  | [] => 0
  | x :: xs => xs.foldl max x

/-- Midpoints of consecutive entries of a list (the spec's description of the
cell-center vector in terms of the node vector). -/
def midpoints : List ℚ → List ℚ
  | a :: b :: rest => (a + b) / 2 :: midpoints (b :: rest)
  | _ => []

/-- Modelled from the spec: `Utils.mkvc (np.outer a b)` — the outer product
`a[i]*b[j]` flattened with the first axis varying fastest (Fortran order,
§4.3/§4.4 of the spec); `Utils.mkvc` itself is not in the source file. -/
def mkvcOuter (a b : List ℚ) : List ℚ :=
  (b.map (fun y => a.map (fun x => x * y))).flatten

/-- `np.ones k` as a rational list. -/
def ones (k : ℕ) : List ℚ := List.replicate k (1 : ℚ)

/-- The mesh state fixed by `TensorMesh.__init__`: the per-axis width lists
`self._h` and the origin `self.x0`. -/
structure TensorMesh where
  h : List (List ℚ)
  x0 : List ℚ

namespace TensorMesh

/-- `self.dim` : the number of width vectors (from `BaseMesh`, set in
`__init__` as `np.array([x.size for x in h])`'s length). -/
def dim (m : TensorMesh) : ℕ := m.h.length

/-- `self.nCv` : cell counts per axis, `[x.size for x in h]`. -/
def nCv (m : TensorMesh) : List ℕ := m.h.map List.length

/-- `np.r_[0., hx.cumsum()] + x0[a]` : node coordinates along one axis. -/
def nodeVecOf (hx : List ℚ) (o : ℚ) : List ℚ :=
  (0 :: cumsum hx).map (fun c => c + o)

/-- `np.r_[0, hx[:-1].cumsum()] + hx*0.5 + x0[a]` : cell-center coordinates
along one axis (elementwise sum of three equal-length arrays). -/
def ccVecOf (hx : List ℚ) (o : ℚ) : List ℚ :=
  List.zipWith (fun c w => c + w * (1/2) + o) (0 :: cumsum hx.dropLast) hx

/-- Axis-indexed core of `vectorNx`/`vectorNy`/`vectorNz`. -/
def vectorN (m : TensorMesh) (a : ℕ) : List ℚ :=
  nodeVecOf (m.h.getD a []) (m.x0.getD a 0)

/-- Axis-indexed core of `vectorCCx`/`vectorCCy`/`vectorCCz`. -/
def vectorCC (m : TensorMesh) (a : ℕ) : List ℚ :=
  ccVecOf (m.h.getD a []) (m.x0.getD a 0)

/-- `vectorNx` property of the source. -/
def vectorNx (m : TensorMesh) : List ℚ := m.vectorN 0

/-- `vectorNy` property: `None if self.dim < 2 else np.r_[0., hy.cumsum()] + x0[1]`. -/
def vectorNy (m : TensorMesh) : Option (List ℚ) :=
  if m.dim < 2 then none else some (m.vectorN 1)

/-- `vectorNz` property: `None if self.dim < 3 else np.r_[0., hz.cumsum()] + x0[2]`. -/
def vectorNz (m : TensorMesh) : Option (List ℚ) :=
  if m.dim < 3 then none else some (m.vectorN 2)

/-- `vectorCCx` property of the source. -/
def vectorCCx (m : TensorMesh) : List ℚ := m.vectorCC 0

/-- `vectorCCy` property (`None` below dimension 2). -/
def vectorCCy (m : TensorMesh) : Option (List ℚ) :=
  if m.dim < 2 then none else some (m.vectorCC 1)

/-- `vectorCCz` property (`None` below dimension 3). -/
def vectorCCz (m : TensorMesh) : Option (List ℚ) :=
  if m.dim < 3 then none else some (m.vectorCC 2)

/-- `getTensor(locType)` : the three per-axis tensors for the tag, with the
absent (`None`) entries filtered out.  For a tag outside the eight the Python
code leaves `ten` unbound (an error); those tags are outside every claim and
are given the junk value `[]` here. -/
def getTensor (m : TensorMesh) (locType : String) : List (List ℚ) :=
  let ten : List (Option (List ℚ)) :=
    if locType = "Fx" then [some m.vectorNx, m.vectorCCy, m.vectorCCz]
    else if locType = "Fy" then [some m.vectorCCx, m.vectorNy, m.vectorCCz]
    else if locType = "Fz" then [some m.vectorCCx, m.vectorCCy, m.vectorNz]
    else if locType = "Ex" then [some m.vectorCCx, m.vectorNy, m.vectorNz]
    else if locType = "Ey" then [some m.vectorNx, m.vectorCCy, m.vectorNz]
    else if locType = "Ez" then [some m.vectorNx, m.vectorNy, m.vectorCCz]
    else if locType = "CC" then [some m.vectorCCx, m.vectorCCy, m.vectorCCz]
    else if locType = "N" then [some m.vectorNx, m.vectorNy, m.vectorNz]
    else []
  ten.filterMap id

/-- `vol` property: cell volumes as a flat array (dimension cases exactly as
in the source; dimensions outside 1..3 leave `self._vol` as `None`, modelled
by the junk value `[]`). -/
def vol (m : TensorMesh) : List ℚ :=
  match m.h with
  | [h0] => h0
  | [h0, h1] => mkvcOuter h0 h1
  | [h0, h1, h2] => mkvcOuter (mkvcOuter h0 h1) h2
  | _ => []

/-- `area` property: face areas, the per-axis blocks concatenated in axis
order exactly as in the source. -/
def area (m : TensorMesh) : List ℚ :=
  match m.h with
  | [h0] => ones (h0.length + 1)
  | [h0, h1] =>
      mkvcOuter (ones (h0.length + 1)) h1 ++ mkvcOuter h0 (ones (h1.length + 1))
  | [h0, h1, h2] =>
      mkvcOuter (ones (h0.length + 1)) (mkvcOuter h1 h2)
        ++ mkvcOuter h0 (mkvcOuter (ones (h1.length + 1)) h2)
        ++ mkvcOuter h0 (mkvcOuter h1 (ones (h2.length + 1)))
  | _ => []

/-- `edge` property: edge lengths, the per-axis blocks concatenated in axis
order exactly as in the source. -/
def edge (m : TensorMesh) : List ℚ :=
  match m.h with
  | [h0] => h0
  | [h0, h1] =>
      mkvcOuter h0 (ones (h1.length + 1)) ++ mkvcOuter (ones (h0.length + 1)) h1
  | [h0, h1, h2] =>
      mkvcOuter h0 (mkvcOuter (ones (h1.length + 1)) (ones (h2.length + 1)))
        ++ mkvcOuter (ones (h0.length + 1)) (mkvcOuter h1 (ones (h2.length + 1)))
        ++ mkvcOuter (ones (h0.length + 1)) (mkvcOuter (ones (h1.length + 1)) h2)
  | _ => []

/-- One point of `isInside`: the conjunction of per-axis closed-range tests,
axes 1 and 2 guarded by `self.dim > 1` / `self.dim > 2` as in the source. -/
def insidePoint (m : TensorMesh) (p : List ℚ) : Bool :=
  let i1 := decide (lmin m.vectorNx ≤ p.getD 0 0) && decide (p.getD 0 0 ≤ lmax m.vectorNx)
  let i2 :=
    if 1 < m.dim then
      i1 && (decide (lmin (m.vectorN 1) ≤ p.getD 1 0) && decide (p.getD 1 0 ≤ lmax (m.vectorN 1)))
    else i1
  if 2 < m.dim then
    i2 && (decide (lmin (m.vectorN 2) ≤ p.getD 2 0) && decide (p.getD 2 0 ≤ lmax (m.vectorN 2)))
  else i2

/-- `isInside(pts)` : one boolean per query point. -/
def isInside (m : TensorMesh) (pts : List (List ℚ)) : List Bool :=
  pts.map (m.insidePoint)

/-- The analytic face count along axis `a`:
`(nC[a]+1) * ∏_{b ≠ a} nC[b]`. -/
def faceCnt (m : TensorMesh) (a : ℕ) : ℕ :=
  ((m.h.getD a []).length + 1) * ((m.nCv).eraseIdx a).prod

/-- The analytic edge count along axis `a`:
`nC[a] * ∏_{b ≠ a} (nC[b]+1)`. -/
def edgeCnt (m : TensorMesh) (a : ℕ) : ℕ :=
  (m.h.getD a []).length * (((m.nCv).eraseIdx a).map (· + 1)).prod

/-- Modelled from the spec: `BaseMesh.nFv`, the per-axis face counts
(one entry per axis); `BaseMesh` is not in the source file, the counts follow
§4.6 of the spec. -/
def nFv (m : TensorMesh) : List ℕ :=
  (List.range m.dim).map (m.faceCnt)

/-- Modelled from the spec: `BaseMesh.nEv`, the per-axis edge counts, dual to
`nFv`. -/
def nEv (m : TensorMesh) : List ℕ :=
  (List.range m.dim).map (m.edgeCnt)

/-- The failure modes of `getInterpolationMat` in the source: the
`assert np.all(self.isInside(loc))` (spec: OutOfDomain), the final
`raise NotImplementedError` (spec: UnsupportedOperation), and a Python
`IndexError` from the assignment `components[ind] = ...` when `ind` is out of
range for the block list. -/
inductive MeshError
  | outOfDomain
  | unsupportedOperation
  | indexError
deriving DecidableEq

/-- One horizontal block of the assembled sparse matrix `Q`:
`Utils.spzeros(rows, cols)` or the `Utils.interpmat` block built from the
query points and the tensors of the location type (the numeric content of
`Utils.interpmat`, a collaborator outside the source file, is abstracted). -/
inductive Block
  | zero (rows cols : ℕ)
  | interp (loc : List (List ℚ)) (tensors : List (List ℚ))
deriving DecidableEq

/-- `getInterpolationMat(loc, locType)` : the control flow of the source,
returning the list of horizontal blocks of `Q` on success.  The substring
tests `'x' in locType` etc. and the guard
`locType in ['Fx',...,'Ez'] and self.dim >= ind` are translated verbatim;
`components[ind] = ...` raises `IndexError` when `ind` is not a valid index. -/
def getInterpolationMat (m : TensorMesh) (loc : List (List ℚ)) (locType : String) :
    Except MeshError (List Block) :=
  if (m.isInside loc).all (fun b => b) then
    let ind : ℤ :=
      if locType.data.contains 'x' then 0
      else if locType.data.contains 'y' then 1
      else if locType.data.contains 'z' then 2
      else -1
    if locType ∈ (["Fx", "Fy", "Fz", "Ex", "Ey", "Ez"] : List String) ∧ ind ≤ (m.dim : ℤ) then
      let nFnE := if locType.data.contains 'F' then m.nFv else m.nEv
      let comps := nFnE.map (fun n => Block.zero loc.length n)
      if ind.toNat < comps.length then
        Except.ok (comps.set ind.toNat (Block.interp loc (m.getTensor locType)))
      else
        Except.error TensorMesh.MeshError.indexError
    else if locType = "CC" ∨ locType = "N" then
      Except.ok [Block.interp loc (m.getTensor locType)]
    else
      Except.error TensorMesh.MeshError.unsupportedOperation
  else
    Except.error TensorMesh.MeshError.outOfDomain

end TensorMesh

/-- One entry of the constructor argument `h_in`: a bare number
(Python `int`/`long`/`float`) or an explicit 1-D width array. -/
inductive HSpec
  | num (q : ℚ)
  | arr (ws : List ℚ)

/-- The width vector `__init__` derives from one `h_in` entry: a number `q`
becomes `np.ones(int(q))/int(q)` (Python `int` truncates, for positive `q`
the floor), an array is copied as is (`h_i[:]`, cast to float). -/
def hFromSpec : HSpec → List ℚ
  | .num q => List.replicate (⌊q⌋).toNat ((1 : ℚ) / (⌊q⌋ : ℚ))
  | .arr ws => ws

/-- The whole constructor on the width side: `self._h` from `h_in`. -/
def mkTensorMesh (hIn : List HSpec) (x0 : List ℚ) : TensorMesh :=
  ⟨hIn.map hFromSpec, x0⟩

/-- A concrete 1-D mesh with widths `[1, 2]` and origin 0. -/
def mA : TensorMesh := ⟨[[1, 2]], [0]⟩

/-- The 2-D example mesh of the spec: `hx = [1,1,1]`, `hy = [1,2]`,
origin `(0,0)`. -/
def mB : TensorMesh := ⟨[[1, 1, 1], [1, 2]], [0, 0]⟩

/-- A concrete 3-D mesh with one cell per axis of widths 1, 2, 3. -/
def mC : TensorMesh := ⟨[[1], [2], [3]], [0, 0, 0]⟩

/-- A concrete 2-D mesh with a single unit cell. -/
def mD : TensorMesh := ⟨[[1], [1]], [0, 0]⟩

/-! ### Helper lemmas about `cumsum` and prefix sums -/

theorem length_cumsumFrom (acc : ℚ) (l : List ℚ) :
    (cumsumFrom acc l).length = l.length := by
  induction l generalizing acc with
  | nil => rfl
  | cons x xs ih => simp [cumsumFrom, ih]

theorem length_cumsum (l : List ℚ) : (cumsum l).length = l.length :=
  length_cumsumFrom 0 l

theorem psum_zero (l : List ℚ) : psum l 0 = 0 := rfl

theorem psum_succ (l : List ℚ) (i : ℕ) (hi : i < l.length) :
    psum l (i + 1) = psum l i + l.getD i 0 := by
  unfold psum
  rw [List.sum_take_succ l i hi, List.getD_eq_getElem _ _ hi]

theorem getD_mem_of_lt {α : Type} (l : List α) (d : α) (i : ℕ) (hi : i < l.length) :
    l.getD i d ∈ l := by
  rw [List.getD_eq_getElem _ _ hi]
  exact List.getElem_mem hi

/-- Indexing the node-style list `acc :: cumsumFrom acc l` gives the prefix
sums shifted by `acc`. -/
theorem getD_cumsumFrom (l : List ℚ) :
    ∀ (acc : ℚ) (i : ℕ), i ≤ l.length →
      (acc :: cumsumFrom acc l).getD i 0 = acc + psum l i := by
  induction l with
  | nil =>
    intro acc i hi
    have : i = 0 := Nat.le_zero.mp hi
    subst this
    simp [psum]
  | cons x xs ih =>
    intro acc i hi
    cases i with
    | zero => simp [psum]
    | succ j =>
      have hj : j ≤ xs.length := by simpa using hi
      calc (acc :: cumsumFrom acc (x :: xs)).getD (j + 1) 0
          = ((acc + x) :: cumsumFrom (acc + x) xs).getD j 0 := by
            simp [cumsumFrom]
        _ = (acc + x) + psum xs j := ih (acc + x) j hj
        _ = acc + psum (x :: xs) (j + 1) := by
            simp [psum, List.take_succ_cons]
            ring

theorem getD_zero_cumsum (l : List ℚ) (i : ℕ) (hi : i ≤ l.length) :
    (0 :: cumsum l).getD i 0 = psum l i := by
  rw [cumsum, getD_cumsumFrom l 0 i hi, zero_add]

theorem psum_dropLast (l : List ℚ) (i : ℕ) (hi : i < l.length) :
    psum l.dropLast i = psum l i := by
  unfold psum
  rw [List.dropLast_eq_take, List.take_take, Nat.min_eq_left (by omega)]

namespace TensorMesh

theorem nodeVecOf_length (hs : List ℚ) (o : ℚ) :
    (nodeVecOf hs o).length = hs.length + 1 := by
  simp [nodeVecOf, length_cumsum]

theorem ccVecOf_length (hs : List ℚ) (o : ℚ) :
    (ccVecOf hs o).length = hs.length := by
  simp [ccVecOf, List.length_zipWith, length_cumsum, List.length_dropLast]
  omega

theorem nodeVecOf_getD (hs : List ℚ) (o : ℚ) (i : ℕ) (hi : i ≤ hs.length) :
    (nodeVecOf hs o).getD i 0 = psum hs i + o := by
  have hlen : i < ((0 :: cumsum hs).map (fun c => c + o)).length := by
    simp [length_cumsum]
    omega
  unfold nodeVecOf
  rw [List.getD_eq_getElem _ _ hlen, List.getElem_map,
    ← List.getD_eq_getElem _ 0 (by simp [length_cumsum]; omega),
    getD_zero_cumsum _ _ hi]

theorem ccVecOf_getD (hs : List ℚ) (o : ℚ) (i : ℕ) (hi : i < hs.length) :
    (ccVecOf hs o).getD i 0 = psum hs i + hs.getD i 0 * (1/2) + o := by
  have hb1 : i < (0 :: cumsum hs.dropLast).length := by
    simp [length_cumsum, List.length_dropLast]
    omega
  have hzlen : i < (List.zipWith (fun c w => c + w * (1/2) + o)
      (0 :: cumsum hs.dropLast) hs).length := by
    simp [List.length_zipWith, length_cumsum, List.length_dropLast]
    omega
  unfold ccVecOf
  rw [List.getD_eq_getElem _ _ hzlen, List.getElem_zipWith]
  have h1 : (0 :: cumsum hs.dropLast)[i] = psum hs i := by
    rw [← List.getD_eq_getElem _ 0 hb1,
      getD_zero_cumsum _ _ (by simp [List.length_dropLast]; omega),
      psum_dropLast _ _ hi]
  have h2 : hs[i] = hs.getD i 0 := (List.getD_eq_getElem _ _ hi).symm
  rw [h1, h2]

theorem vectorN_length (m : TensorMesh) (a : ℕ) :
    (m.vectorN a).length = (m.h.getD a []).length + 1 :=
  nodeVecOf_length _ _

theorem vectorCC_length (m : TensorMesh) (a : ℕ) :
    (m.vectorCC a).length = (m.h.getD a []).length :=
  ccVecOf_length _ _

theorem vectorN_getD (m : TensorMesh) (a i : ℕ) (hi : i ≤ (m.h.getD a []).length) :
    (m.vectorN a).getD i 0 = psum (m.h.getD a []) i + m.x0.getD a 0 :=
  nodeVecOf_getD _ _ _ hi

theorem vectorCC_getD (m : TensorMesh) (a i : ℕ) (hi : i < (m.h.getD a []).length) :
    (m.vectorCC a).getD i 0
      = psum (m.h.getD a []) i + (m.h.getD a []).getD i 0 * (1/2) + m.x0.getD a 0 :=
  ccVecOf_getD _ _ _ hi

end TensorMesh

/-! ### Midpoints and outer-product helpers -/

theorem midpoints_length (l : List ℚ) : (midpoints l).length = l.length - 1 := by
  induction l with
  | nil => rfl
  | cons a tl ih =>
    cases tl with
    | nil => rfl
    | cons b rest =>
      simp only [midpoints, List.length_cons] at ih ⊢
      omega

theorem midpoints_getD (l : List ℚ) :
    ∀ i, i + 1 < l.length →
      (midpoints l).getD i 0 = (l.getD i 0 + l.getD (i + 1) 0) / 2 := by
  induction l with
  | nil => intro i hi; simp at hi
  | cons a tl ih =>
    cases tl with
    | nil => intro i hi; simp at hi
    | cons b rest =>
      intro i hi
      cases i with
      | zero => simp [midpoints]
      | succ j =>
        have hj : j + 1 < (b :: rest).length := by simpa using hi
        simpa [midpoints] using ih j hj

theorem sum_map_mul (a : List ℚ) (y : ℚ) :
    (a.map (fun x => x * y)).sum = a.sum * y := by
  induction a with
  | nil => simp
  | cons x xs ih =>
    simp only [List.map_cons, List.sum_cons, ih]
    ring

theorem mkvcOuter_sum (a b : List ℚ) : (mkvcOuter a b).sum = a.sum * b.sum := by
  induction b with
  | nil => simp [mkvcOuter]
  | cons y ys ih =>
    simp only [mkvcOuter, List.map_cons, List.flatten_cons, List.sum_append,
      List.sum_cons] at ih ⊢
    rw [sum_map_mul, ih]
    ring

theorem mkvcOuter_length (a b : List ℚ) :
    (mkvcOuter a b).length = a.length * b.length := by
  induction b with
  | nil => simp [mkvcOuter]
  | cons y ys ih =>
    simp only [mkvcOuter, List.map_cons, List.flatten_cons, List.length_append,
      List.length_map, List.length_cons] at ih ⊢
    rw [ih]
    ring

/-! ### Claims C2 and C3: per-axis coordinate vectors -/

/-- C2: for every mesh built from strictly positive width vectors and every
axis `a < dim`, the node vector along `a` equals the cumulative sum of `h[a]`
prefixed with 0 and shifted by `x0[a]`, has length `nC[a]+1`, and is strictly
increasing; the cell-center vector has length `nC[a]` and each cell-center
value lies strictly between the two node coordinates bounding its cell. -/
theorem claim_C2_node_and_cc_vectors (m : TensorMesh) (a : ℕ) (ha : a < m.dim)
    (hpos : ∀ l ∈ m.h, ∀ w ∈ l, 0 < w) :
    m.vectorN a = (0 :: cumsum (m.h.getD a [])).map (fun c => c + m.x0.getD a 0)
    ∧ (m.vectorN a).length = (m.h.getD a []).length + 1
    ∧ (∀ i, i + 1 < (m.vectorN a).length →
        (m.vectorN a).getD i 0 < (m.vectorN a).getD (i + 1) 0)
    ∧ (m.vectorCC a).length = (m.h.getD a []).length
    ∧ (∀ i, i < (m.h.getD a []).length →
        (m.vectorN a).getD i 0 < (m.vectorCC a).getD i 0
        ∧ (m.vectorCC a).getD i 0 < (m.vectorN a).getD (i + 1) 0) := by
  have hmem : m.h.getD a [] ∈ m.h := getD_mem_of_lt _ _ _ ha
  have hposa : ∀ w ∈ m.h.getD a [], 0 < w := hpos _ hmem
  refine ⟨rfl, m.vectorN_length a, ?_, m.vectorCC_length a, ?_⟩
  · intro i hi
    have hi' : i < (m.h.getD a []).length := by
      rw [m.vectorN_length a] at hi
      omega
    rw [m.vectorN_getD a i (le_of_lt hi'), m.vectorN_getD a (i + 1) hi',
      psum_succ _ _ hi']
    have hw := hposa _ (getD_mem_of_lt _ 0 _ hi')
    linarith
  · intro i hi
    rw [m.vectorN_getD a i (le_of_lt hi), m.vectorN_getD a (i + 1) hi,
      m.vectorCC_getD a i hi, psum_succ _ _ hi]
    have hw := hposa _ (getD_mem_of_lt _ 0 _ hi)
    constructor <;> linarith

/-- Witness for C2 at the 1-D mesh `mA` (widths `[1, 2]`), axis 0. -/
theorem claim_C2_witness :
    (0 < mA.dim ∧ ∀ l ∈ mA.h, ∀ w ∈ l, 0 < w)
    ∧ (mA.vectorN 0 = (0 :: cumsum (mA.h.getD 0 [])).map (fun c => c + mA.x0.getD 0 0)
       ∧ (mA.vectorN 0).length = (mA.h.getD 0 []).length + 1
       ∧ (∀ i, i + 1 < (mA.vectorN 0).length →
           (mA.vectorN 0).getD i 0 < (mA.vectorN 0).getD (i + 1) 0)
       ∧ (mA.vectorCC 0).length = (mA.h.getD 0 []).length
       ∧ (∀ i, i < (mA.h.getD 0 []).length →
           (mA.vectorN 0).getD i 0 < (mA.vectorCC 0).getD i 0
           ∧ (mA.vectorCC 0).getD i 0 < (mA.vectorN 0).getD (i + 1) 0)) :=
  ⟨⟨by decide, by decide⟩,
    claim_C2_node_and_cc_vectors mA 0 (by decide) (by decide)⟩

/-- C3: for every mesh with strictly positive widths and every axis
`a < dim`, the implemented cell-center vector equals, entry by entry, the
vector of midpoints between consecutive entries of the node vector. -/
theorem claim_C3_cc_refines_midpoints (m : TensorMesh) (a : ℕ) (ha : a < m.dim)
    (hpos : ∀ l ∈ m.h, ∀ w ∈ l, 0 < w) :
    m.vectorCC a = midpoints (m.vectorN a) := by
  apply List.ext_getElem
  · rw [m.vectorCC_length a, midpoints_length, m.vectorN_length a]
    omega
  · intro i h1 h2
    have hi : i < (m.h.getD a []).length := by
      rw [m.vectorCC_length a] at h1
      exact h1
    rw [← List.getD_eq_getElem _ 0 h1, ← List.getD_eq_getElem _ 0 h2,
      midpoints_getD _ i (by rw [m.vectorN_length a]; omega),
      m.vectorCC_getD a i hi, m.vectorN_getD a i (le_of_lt hi),
      m.vectorN_getD a (i + 1) hi, psum_succ _ _ hi]
    ring

/-- Witness for C3 at the 1-D mesh `mA` (widths `[1, 2]`), axis 0. -/
theorem claim_C3_witness :
    (0 < mA.dim ∧ ∀ l ∈ mA.h, ∀ w ∈ l, 0 < w)
    ∧ mA.vectorCC 0 = midpoints (mA.vectorN 0) :=
  ⟨⟨by decide, by decide⟩,
    claim_C3_cc_refines_midpoints mA 0 (by decide) (by decide)⟩

/-! ### Claims C4 and C5: cell volumes -/

/-- C4: for every mesh of dimension 1, 2 or 3 the `vol` array has length
equal to the product of the per-axis cell counts, and its entries sum to the
product of the per-axis extents `sum(h[axis])`, exactly. -/
theorem claim_C4_vol_length_sum (m : TensorMesh)
    (hd : m.dim = 1 ∨ m.dim = 2 ∨ m.dim = 3) :
    (m.vol).length = (m.nCv).prod
    ∧ (m.vol).sum = (m.h.map List.sum).prod := by
  obtain ⟨hl, o⟩ := m
  simp only [TensorMesh.dim] at hd
  rcases hl with _ | ⟨h0, _ | ⟨h1, _ | ⟨h2, _ | ⟨h3, rest⟩⟩⟩⟩
  · simp only [List.length_nil] at hd
    omega
  · simp [TensorMesh.vol, TensorMesh.nCv]
  · simp [TensorMesh.vol, TensorMesh.nCv, mkvcOuter_length, mkvcOuter_sum]
  · simp [TensorMesh.vol, TensorMesh.nCv, mkvcOuter_length, mkvcOuter_sum,
      mul_assoc]
  · simp only [List.length_cons] at hd
    omega

/-- Witness for C4 at the 2-D mesh `mB`. -/
theorem claim_C4_witness :
    (mB.dim = 1 ∨ mB.dim = 2 ∨ mB.dim = 3)
    ∧ ((mB.vol).length = (mB.nCv).prod
       ∧ (mB.vol).sum = (mB.h.map List.sum).prod) :=
  ⟨by decide, claim_C4_vol_length_sum mB (by decide)⟩

/-- C5: for the 2-D mesh with `hx = [1,1,1]`, `hy = [1,2]`, origin `(0,0)`,
the `vol` array is exactly `[1,1,1,2,2,2]` (first axis varying fastest) and
sums to 9. -/
theorem claim_C5_vol_2d_example :
    mB.vol = [1, 1, 1, 2, 2, 2] ∧ mB.vol.sum = 9 := by
  have h1 : mB.vol = [1, 1, 1, 2, 2, 2] := by
    simp [mB, TensorMesh.vol, mkvcOuter]
  refine ⟨h1, ?_⟩
  rw [h1]
  simp [List.sum_cons, List.sum_nil]
  norm_num

/-! ### Claim C6: face areas and edge lengths -/

/-- C6: for every mesh of dimension 1, 2 or 3, `area` is the concatenation in
axis order of per-axis blocks of the analytic sizes
`(nC[a]+1) * ∏_{b ≠ a} nC[b]` (total length their sum), a 1-D mesh has
`area = ones(nC[0]+1)` (every entry 1), and `edge` has the dual total length
with per-axis sizes `nC[a] * ∏_{b ≠ a} (nC[b]+1)`. -/
theorem claim_C6_area_edge_lengths (m : TensorMesh)
    (hd : m.dim = 1 ∨ m.dim = 2 ∨ m.dim = 3) :
    (m.area).length = ((List.range m.dim).map (m.faceCnt)).sum
    ∧ (m.edge).length = ((List.range m.dim).map (m.edgeCnt)).sum
    ∧ (m.dim = 1 → m.area = List.replicate ((m.h.getD 0 []).length + 1) 1) := by
  obtain ⟨hl, o⟩ := m
  simp only [TensorMesh.dim] at hd
  rcases hl with _ | ⟨h0, _ | ⟨h1, _ | ⟨h2, _ | ⟨h3, rest⟩⟩⟩⟩
  · simp only [List.length_nil] at hd
    omega
  · refine ⟨?_, ?_, fun _ => rfl⟩
    · simp [TensorMesh.area, TensorMesh.dim, TensorMesh.faceCnt, TensorMesh.nCv,
        ones, List.range_succ, List.eraseIdx]
    · simp [TensorMesh.edge, TensorMesh.dim, TensorMesh.edgeCnt, TensorMesh.nCv,
        List.range_succ, List.eraseIdx]
  · refine ⟨?_, ?_, ?_⟩
    · simp [TensorMesh.area, TensorMesh.dim, TensorMesh.faceCnt, TensorMesh.nCv,
        ones, List.range_succ, List.eraseIdx, mkvcOuter_length]
      ring
    · simp [TensorMesh.edge, TensorMesh.dim, TensorMesh.edgeCnt, TensorMesh.nCv,
        ones, List.range_succ, List.eraseIdx, mkvcOuter_length]
      ring
    · intro hc
      simp only [TensorMesh.dim, List.length_cons, List.length_nil] at hc
      omega
  · refine ⟨?_, ?_, ?_⟩
    · simp [TensorMesh.area, TensorMesh.dim, TensorMesh.faceCnt, TensorMesh.nCv,
        ones, List.range_succ, List.eraseIdx, mkvcOuter_length]
      ring
    · simp [TensorMesh.edge, TensorMesh.dim, TensorMesh.edgeCnt, TensorMesh.nCv,
        ones, List.range_succ, List.eraseIdx, mkvcOuter_length]
      ring
    · intro hc
      simp only [TensorMesh.dim, List.length_cons, List.length_nil] at hc
      omega
  · simp only [List.length_cons] at hd
    omega

/-- Witness for C6 at the 3-D mesh `mC`. -/
theorem claim_C6_witness :
    (mC.dim = 1 ∨ mC.dim = 2 ∨ mC.dim = 3)
    ∧ ((mC.area).length = ((List.range mC.dim).map (mC.faceCnt)).sum
       ∧ (mC.edge).length = ((List.range mC.dim).map (mC.edgeCnt)).sum
       ∧ (mC.dim = 1 → mC.area = List.replicate ((mC.h.getD 0 []).length + 1) 1)) :=
  ⟨by decide, claim_C6_area_edge_lengths mC (by decide)⟩

/-! ### Claim C7: point containment -/

theorem foldl_min_le_init (xs : List ℚ) : ∀ x : ℚ, xs.foldl min x ≤ x := by
  induction xs with
  | nil => intro x; exact le_refl x
  | cons y ys ih =>
    intro x
    calc (y :: ys).foldl min x = ys.foldl min (min x y) := rfl
      _ ≤ min x y := ih _
      _ ≤ x := min_le_left _ _

theorem foldl_min_le_mem (xs : List ℚ) : ∀ x z, z ∈ xs → xs.foldl min x ≤ z := by
  induction xs with
  | nil => intro x z hz; simp at hz
  | cons y ys ih =>
    intro x z hz
    rcases List.mem_cons.mp hz with rfl | hz'
    · calc (z :: ys).foldl min x = ys.foldl min (min x z) := rfl
        _ ≤ min x z := foldl_min_le_init _ _
        _ ≤ z := min_le_right _ _
    · exact ih (min x y) z hz'

theorem lmin_le_of_mem (l : List ℚ) (z : ℚ) (hz : z ∈ l) : lmin l ≤ z := by
  cases l with
  | nil => simp at hz
  | cons x xs =>
    rcases List.mem_cons.mp hz with rfl | hz'
    · exact foldl_min_le_init xs z
    · exact foldl_min_le_mem xs x z hz'

theorem init_le_foldl_max (xs : List ℚ) : ∀ x : ℚ, x ≤ xs.foldl max x := by
  induction xs with
  | nil => intro x; exact le_refl x
  | cons y ys ih =>
    intro x
    calc x ≤ max x y := le_max_left _ _
      _ ≤ ys.foldl max (max x y) := ih _
      _ = (y :: ys).foldl max x := rfl

theorem mem_le_foldl_max (xs : List ℚ) : ∀ x z, z ∈ xs → z ≤ xs.foldl max x := by
  induction xs with
  | nil => intro x z hz; simp at hz
  | cons y ys ih =>
    intro x z hz
    rcases List.mem_cons.mp hz with rfl | hz'
    · calc z ≤ max x z := le_max_right _ _
        _ ≤ ys.foldl max (max x z) := init_le_foldl_max _ _
        _ = (z :: ys).foldl max x := rfl
    · exact ih (max x y) z hz'

theorem le_lmax_of_mem (l : List ℚ) (z : ℚ) (hz : z ∈ l) : z ≤ lmax l := by
  cases l with
  | nil => simp at hz
  | cons x xs =>
    rcases List.mem_cons.mp hz with rfl | hz'
    · exact init_le_foldl_max xs z
    · exact mem_le_foldl_max xs x z hz'

namespace TensorMesh

theorem insidePoint_eq (m : TensorMesh) (p : List ℚ) :
    m.insidePoint p = true ↔
      (lmin (m.vectorN 0) ≤ p.getD 0 0 ∧ p.getD 0 0 ≤ lmax (m.vectorN 0))
      ∧ (1 < m.dim → lmin (m.vectorN 1) ≤ p.getD 1 0 ∧ p.getD 1 0 ≤ lmax (m.vectorN 1))
      ∧ (2 < m.dim → lmin (m.vectorN 2) ≤ p.getD 2 0 ∧ p.getD 2 0 ≤ lmax (m.vectorN 2)) := by
  unfold insidePoint vectorNx
  by_cases h1 : 1 < m.dim <;> by_cases h2 : 2 < m.dim <;>
    simp [h1, h2, Bool.and_eq_true, decide_eq_true_eq] <;> tauto

theorem insidePoint_iff (m : TensorMesh) (hd : m.dim = 1 ∨ m.dim = 2 ∨ m.dim = 3)
    (p : List ℚ) :
    m.insidePoint p = true ↔
      ∀ a, a < m.dim →
        lmin (m.vectorN a) ≤ p.getD a 0 ∧ p.getD a 0 ≤ lmax (m.vectorN a) := by
  have hd1 : 0 < m.dim := by rcases hd with h | h | h <;> omega
  have hd3 : m.dim ≤ 3 := by rcases hd with h | h | h <;> omega
  rw [m.insidePoint_eq p]
  constructor
  · rintro ⟨H0, H1, H2⟩ a ha
    have ha3 : a < 3 := by omega
    interval_cases a
    · exact H0
    · exact H1 ha
    · exact H2 ha
  · intro H
    exact ⟨H 0 hd1, fun h1 => H 1 h1, fun h2 => H 2 h2⟩

end TensorMesh

/-- C7: for every mesh of dimension 1..3 and every query array, `isInside`
returns one boolean per point, true exactly when every coordinate lies in the
closed interval between the minimal and maximal node coordinate of its axis;
in particular a point whose coordinates are all node coordinates is inside,
and a point with a coordinate strictly above the maximal node coordinate is
outside. -/
theorem claim_C7_isInside (m : TensorMesh) (hd : m.dim = 1 ∨ m.dim = 2 ∨ m.dim = 3)
    (pts : List (List ℚ)) :
    (m.isInside pts).length = pts.length
    ∧ (∀ k, k < pts.length →
        ((m.isInside pts).getD k false = true ↔
          ∀ a, a < m.dim →
            lmin (m.vectorN a) ≤ (pts.getD k []).getD a 0
            ∧ (pts.getD k []).getD a 0 ≤ lmax (m.vectorN a)))
    ∧ (∀ p : List ℚ, (∀ a, a < m.dim → p.getD a 0 ∈ m.vectorN a) →
        m.insidePoint p = true)
    ∧ (∀ p : List ℚ, (∃ a, a < m.dim ∧ lmax (m.vectorN a) < p.getD a 0) →
        m.insidePoint p = false) := by
  refine ⟨by simp [TensorMesh.isInside], ?_, ?_, ?_⟩
  · intro k hk
    have hmap : (m.isInside pts).getD k false = m.insidePoint (pts.getD k []) := by
      unfold TensorMesh.isInside
      rw [List.getD_eq_getElem _ _ (by simpa using hk), List.getElem_map,
        List.getD_eq_getElem _ _ hk]
    rw [hmap]
    exact m.insidePoint_iff hd _
  · intro p hp
    rw [m.insidePoint_iff hd p]
    intro a ha
    exact ⟨lmin_le_of_mem _ _ (hp a ha), le_lmax_of_mem _ _ (hp a ha)⟩
  · intro p hp
    obtain ⟨a, ha, hgt⟩ := hp
    cases hin : m.insidePoint p with
    | false => rfl
    | true =>
      exfalso
      have hba := (m.insidePoint_iff hd p).mp hin a ha
      linarith [hba.2]

/-- Witness for C7 at the 1-D mesh `mA` with two query points. -/
theorem claim_C7_witness :
    (mA.dim = 1 ∨ mA.dim = 2 ∨ mA.dim = 3)
    ∧ ((mA.isInside [[0], [7]]).length = ([[0], [7]] : List (List ℚ)).length
       ∧ (∀ k, k < ([[0], [7]] : List (List ℚ)).length →
           ((mA.isInside [[0], [7]]).getD k false = true ↔
             ∀ a, a < mA.dim →
               lmin (mA.vectorN a) ≤ (([[0], [7]] : List (List ℚ)).getD k []).getD a 0
               ∧ (([[0], [7]] : List (List ℚ)).getD k []).getD a 0 ≤ lmax (mA.vectorN a)))
       ∧ (∀ p : List ℚ, (∀ a, a < mA.dim → p.getD a 0 ∈ mA.vectorN a) →
           mA.insidePoint p = true)
       ∧ (∀ p : List ℚ, (∃ a, a < mA.dim ∧ lmax (mA.vectorN a) < p.getD a 0) →
           mA.insidePoint p = false)) :=
  ⟨by decide, claim_C7_isInside mA (by decide) [[0], [7]]⟩

/-! ### Claims C8 and C1: interpolation-matrix failure modes -/

/-- C8: for every mesh, every supported location tag and every query array
with at least one point not inside the mesh, `getInterpolationMat` fails with
the OutOfDomain error (the `assert` precedes all matrix assembly, so the
`Except` result carries no partial matrix). -/
theorem claim_C8_out_of_domain (m : TensorMesh) (loc : List (List ℚ)) (locType : String)
    (hlt : locType ∈ (["N", "CC", "Fx", "Fy", "Fz", "Ex", "Ey", "Ez"] : List String))
    (hout : ∃ p ∈ loc, m.insidePoint p = false) :
    m.getInterpolationMat loc locType = Except.error TensorMesh.MeshError.outOfDomain := by
  obtain ⟨p, hp, hfalse⟩ := hout
  have hall : ¬ ((m.isInside loc).all (fun b => b) = true) := by
    rw [List.all_eq_true]
    push_neg
    refine ⟨m.insidePoint p, List.mem_map_of_mem _ hp, ?_⟩
    simp [hfalse]
  unfold TensorMesh.getInterpolationMat
  rw [if_neg hall]

/-- Witness for C8: the point `(7)` lies outside the 1-D mesh `mA`. -/
theorem claim_C8_witness :
    ("N" ∈ (["N", "CC", "Fx", "Fy", "Fz", "Ex", "Ey", "Ez"] : List String)
     ∧ ∃ p ∈ ([[7]] : List (List ℚ)), mA.insidePoint p = false)
    ∧ mA.getInterpolationMat [[7]] "N" = Except.error TensorMesh.MeshError.outOfDomain := by
  have hf : mA.insidePoint [7] = false := by
    norm_num [TensorMesh.insidePoint, TensorMesh.vectorNx, TensorMesh.vectorN,
      TensorMesh.nodeVecOf, cumsum, cumsumFrom, lmin, lmax, mA, TensorMesh.dim,
      min_def, max_def]
  exact ⟨⟨by decide, ⟨[7], by simp, hf⟩⟩,
    claim_C8_out_of_domain mA [[7]] "N" (by decide) ⟨[7], by simp, hf⟩⟩

/-- C1 (code bug): on the 2-D mesh `mD` with the in-domain point `(0,0)` and
the dimensionally inapplicable tag `Fz` (axis index 2, equal to `dim`), the
guard `self.dim >= ind` passes and the assignment `components[2]` on the
2-element block list fails with an IndexError, not with the claimed
UnsupportedOperation (`NotImplementedError`). -/
theorem claim_C1_fz_2d_index_error :
    mD.getInterpolationMat [[0, 0]] "Fz" = Except.error TensorMesh.MeshError.indexError := by
  have h1 : (mD.isInside [[0, 0]]).all (fun b => b) = true := by
    norm_num [TensorMesh.isInside, TensorMesh.insidePoint, TensorMesh.vectorNx,
      TensorMesh.vectorN, TensorMesh.nodeVecOf, cumsum, cumsumFrom, lmin, lmax,
      mD, TensorMesh.dim, min_def, max_def]
  unfold TensorMesh.getInterpolationMat
  rw [if_pos h1]
  rfl

/-! ### Claim C9: constructor width specifications -/

/-- C9 counterexample: for the positive non-integral number `5/2` the
constructor produces `int(5/2) = 2` cells of width `1/2`, not cells of width
`1/(5/2) = 2/5` as the claim states. -/
theorem claim_C9_counterexample :
    hFromSpec (HSpec.num (5/2)) = [1/2, 1/2]
    ∧ ¬ (∀ w ∈ hFromSpec (HSpec.num (5/2)), w = 1 / ((5:ℚ)/2)) := by
  have h1 : hFromSpec (HSpec.num (5/2)) = [1/2, 1/2] := by
    unfold hFromSpec
    norm_num
    rfl
  refine ⟨h1, ?_⟩
  rw [h1]
  intro H
  have h2 := H (1/2) (by simp)
  norm_num at h2

/-- C9 (amended): a numeric width spec `q > 0` yields `int(q) = ⌊q⌋` equal
cells of width `1/⌊q⌋`; whenever `q ≥ 1` these widths are all equal to
`1/⌊q⌋` and sum to exactly 1 (for integer `q` this is `q` cells of width
`1/q` spanning the unit interval); an explicit width list is taken over as
given. -/
theorem claim_C9_amended_constructor (q : ℚ) (hq : 0 < q) :
    hFromSpec (HSpec.num q) = List.replicate (⌊q⌋).toNat (1 / (⌊q⌋ : ℚ))
    ∧ (1 ≤ q → (hFromSpec (HSpec.num q)).sum = 1
        ∧ ∀ w ∈ hFromSpec (HSpec.num q), w = 1 / (⌊q⌋ : ℚ))
    ∧ (∀ ws : List ℚ, hFromSpec (HSpec.arr ws) = ws) := by
  refine ⟨rfl, ?_, fun ws => rfl⟩
  intro h1
  have hfl : 1 ≤ ⌊q⌋ := Int.le_floor.mpr (by exact_mod_cast h1)
  constructor
  · show (List.replicate (⌊q⌋).toNat (1 / (⌊q⌋ : ℚ))).sum = 1
    rw [List.sum_replicate, nsmul_eq_mul]
    have hcast : (((⌊q⌋).toNat : ℕ) : ℚ) = ((⌊q⌋ : ℤ) : ℚ) := by
      exact_mod_cast congrArg (fun z : ℤ => (z : ℚ)) (Int.toNat_of_nonneg (by omega))
    rw [hcast]
    have hne : ((⌊q⌋ : ℤ) : ℚ) ≠ 0 := by
      exact_mod_cast (by omega : (⌊q⌋ : ℤ) ≠ 0)
    field_simp
  · intro w hw
    exact List.eq_of_mem_replicate hw

/-- Witness for the amended C9 at `q = 3`. -/
theorem claim_C9_witness :
    (0 < (3 : ℚ))
    ∧ (hFromSpec (HSpec.num 3) = List.replicate (⌊(3:ℚ)⌋).toNat (1 / (⌊(3:ℚ)⌋ : ℚ))
       ∧ (1 ≤ (3:ℚ) → (hFromSpec (HSpec.num 3)).sum = 1
           ∧ ∀ w ∈ hFromSpec (HSpec.num 3), w = 1 / (⌊(3:ℚ)⌋ : ℚ))
       ∧ (∀ ws : List ℚ, hFromSpec (HSpec.arr ws) = ws)) :=
  ⟨by decide, claim_C9_amended_constructor 3 (by decide)⟩

/-! ### Claim C10: getTensor always returns dim tensors -/

/-- C10: for every mesh of dimension 1..3 and each of the eight tags,
`getTensor` returns exactly `dim` per-axis vectors (absent axes are silently
filtered out); in particular on a 1-D mesh the tag `Fy` still yields one
vector, the cell-center vector, not the node vector the tag names. -/
theorem claim_C10_getTensor_dim (m : TensorMesh)
    (hd : m.dim = 1 ∨ m.dim = 2 ∨ m.dim = 3) :
    (∀ lt ∈ (["N", "CC", "Fx", "Fy", "Fz", "Ex", "Ey", "Ez"] : List String),
      (m.getTensor lt).length = m.dim)
    ∧ (m.dim = 1 → m.getTensor "Fy" = [m.vectorCCx]) := by
  constructor
  · intro lt hlt
    fin_cases hlt <;> rcases hd with h | h | h <;>
      simp [TensorMesh.getTensor, TensorMesh.vectorNx, TensorMesh.vectorNy,
        TensorMesh.vectorNz, TensorMesh.vectorCCx, TensorMesh.vectorCCy,
        TensorMesh.vectorCCz, h]
  · intro h1
    simp [TensorMesh.getTensor, TensorMesh.vectorNy, TensorMesh.vectorCCz,
      TensorMesh.vectorCCx, h1]

/-- Witness for C10 at the 1-D mesh `mA`. -/
theorem claim_C10_witness :
    (mA.dim = 1 ∨ mA.dim = 2 ∨ mA.dim = 3)
    ∧ ((∀ lt ∈ (["N", "CC", "Fx", "Fy", "Fz", "Ex", "Ey", "Ez"] : List String),
        (mA.getTensor lt).length = mA.dim)
       ∧ (mA.dim = 1 → mA.getTensor "Fy" = [mA.vectorCCx])) :=
  ⟨by decide, claim_C10_getTensor_dim mA (by decide)⟩
